import Mathlib

/-!
Verification of the `side-quest-observability` event bus against its
natural-language specification.

The TypeScript sources are shallowly embedded: JavaScript runtime values are
modelled by `JsValue` (including `undefined`), machine numbers that can be
`NaN` by `JsNum`, and each handler or data-structure method is translated as
a pure Lean function over explicit state.  Host functions that the code calls
(`Date.parse`, fresh id/timestamp generation, `Math.random`) appear as
explicit parameters of the embedded functions.
-/

namespace SQObs

/-- A JavaScript runtime value, as produced by `JSON.parse` plus the extra
`undefined` value that property access on a missing key yields. -/
inductive JsValue where
  | undef : JsValue
  | null : JsValue
  | bool (b : Bool) : JsValue
  | num (n : Int) : JsValue
  | str (s : String) : JsValue
  | arr (elems : List JsValue) : JsValue
  | obj (fields : List (String × JsValue)) : JsValue

/-- JavaScript strict equality `v === 's'` against a string literal. -/
def jsStrEq (v : JsValue) (s : String) : Bool :=
  match v with
  | .str t => t == s
  | _ => false

/-- JavaScript strict equality `v === true`. -/
def jsIsTrue (v : JsValue) : Bool :=
  match v with
  | .bool b => b
  | _ => false

/-- JavaScript strict equality `v === undefined`. -/
def jsIsUndef (v : JsValue) : Bool :=
  match v with
  | .undef => true
  | _ => false

/-- JavaScript property access `o[k]` on an object: the last binding of the
key wins (as after `JSON.parse` of duplicate keys), a missing key yields
`undefined`. -/
def jsGet (fields : List (String × JsValue)) (k : String) : JsValue :=
  fields.foldl (fun acc kv => if kv.1 = k then kv.2 else acc) JsValue.undef

/-- JavaScript `k in o`: key presence regardless of the value. -/
def jsHasKey (fields : List (String × JsValue)) (k : String) : Bool :=
  fields.any (fun kv => kv.1 = k)

/-- JavaScript `v ?? d`: the nullish-coalescing operator. -/
def jsCoalesce (v d : JsValue) : JsValue :=
  match v with
  | .undef => d
  | .null => d
  | x => x

/-- Whitespace as JavaScript `String.prototype.trim` removes it (the
characters relevant to this code base). -/
def isJsSpace (c : Char) : Bool :=
  c = ' ' ∨ c = '\t' ∨ c = '\n' ∨ c = '\r'

/-- `value.trim()` at the character-list level. -/
def trimChars (cs : List Char) : List Char :=
  ((cs.dropWhile isJsSpace).reverse.dropWhile isJsSpace).reverse

/-- `isNonEmptyString` from `server.ts`:
`typeof value === 'string' && value.trim().length > 0`. -/
def isNonEmptyString (v : JsValue) : Bool :=
  match v with
  | .str s => 0 < (trimChars s.data).length
  | _ => false

/-- Read the string out of a `JsValue` known to be a string (the TypeScript
code uses a type-narrowing cast after `isNonEmptyString`). -/
def getStr (v : JsValue) : String :=
  match v with
  | .str s => s
  | _ => ""

/-- The event envelope record of `types.ts` / spec section 3.  `data` is kept
as a raw `JsValue` because that is what the server stores. -/
structure EventEnvelope where
  schemaVersion : String
  id : String
  timestamp : String
  type : String
  app : String
  appRoot : String
  source : String
  correlationId : String
  data : JsValue

/-- `createEvent` from `schema.ts`.  The generated id, timestamp and
correlation id come from host calls (`nanoId()`, `new Date().toISOString()`,
`generateCorrelationId()`) and are passed in explicitly as `freshId`,
`freshTs`, `freshCid`. -/
def createEvent (type : String) (data : JsValue)
    (app appRoot source : String) (correlationId : Option String)
    (freshId freshTs freshCid : String) : EventEnvelope :=
  { schemaVersion := "1.0.0"
    id := freshId
    timestamp := freshTs
    type := type
    app := app
    appRoot := appRoot
    source := source
    correlationId := correlationId.getD freshCid
    data := data }

/-- `validateFullEnvelope` from `server.ts`.  `parseOk` models the host
predicate `!Number.isNaN(Date.parse(value))` used by `isValidTimestamp`. -/
def validateFullEnvelope (parseOk : String → Bool)
    (body : List (String × JsValue)) : Except String EventEnvelope :=
  if !(jsStrEq (jsGet body "schemaVersion") "1.0.0") then
    .error "Unknown schemaVersion"
  else if !(isNonEmptyString (jsGet body "id")) then
    .error "Missing or invalid id field"
  else if !(isNonEmptyString (jsGet body "timestamp")
      && parseOk (getStr (jsGet body "timestamp"))) then
    .error "Missing or invalid timestamp field"
  else if !(isNonEmptyString (jsGet body "type")) then
    .error "Missing or invalid type field"
  else if !(isNonEmptyString (jsGet body "app")) then
    .error "Missing or invalid app field"
  else if !(isNonEmptyString (jsGet body "appRoot")) then
    .error "Missing or invalid appRoot field"
  else if !(jsStrEq (jsGet body "source") "cli")
      && !(jsStrEq (jsGet body "source") "hook") then
    .error "Missing or invalid source field"
  else if !(isNonEmptyString (jsGet body "correlationId")) then
    .error "Missing or invalid correlationId field"
  else if !(jsHasKey body "data") then
    .error "Missing data field"
  else
    .ok { schemaVersion := "1.0.0"
          id := getStr (jsGet body "id")
          timestamp := getStr (jsGet body "timestamp")
          type := getStr (jsGet body "type")
          app := getStr (jsGet body "app")
          appRoot := getStr (jsGet body "appRoot")
          source := getStr (jsGet body "source")
          correlationId := getStr (jsGet body "correlationId")
          data := jsGet body "data" }

/-- Result of the `POST /events` handler: HTTP status, the envelope pushed
into the store (if any) and the `(topic, envelope)` pairs published to the
WebSocket layer. -/
structure PostResult where
  status : Nat
  stored : Option EventEnvelope
  published : List (String × EventEnvelope)

/-- `handlePostEnvelope` from `server.ts`, starting after
`parseJsonObjectBody` succeeded (so `body` is a parsed JSON object).
`parseOk` models `Date.parse`; `freshId`, `freshTs`, `freshCid` model the
host-generated values used when a partial payload is wrapped by
`createEvent`. -/
def handlePostEnvelope (parseOk : String → Bool)
    (defaultApp defaultAppRoot freshId freshTs freshCid : String)
    (body : List (String × JsValue)) : PostResult :=
  match jsGet body "type" with
  | .str _ =>
    if !(jsHasKey body "data") then
      { status := 400, stored := none, published := [] }
    else if !(jsIsUndef (jsGet body "schemaVersion")) then
      match validateFullEnvelope parseOk body with
      | .error _ => { status := 400, stored := none, published := [] }
      | .ok event =>
        { status := 201
          stored := some event
          published := [("events.all", event),
                        ("events." ++ event.type, event)] }
    else
      -- Partial payload: wrap in a full envelope via createEvent.
      let event := createEvent (getStr (jsGet body "type"))
        (match jsGet body "data" with
         | .null => .obj []
         | .undef => .obj []
         | d => d)
        (if isNonEmptyString (jsGet body "app") then getStr (jsGet body "app")
         else defaultApp)
        (if isNonEmptyString (jsGet body "appRoot") then
          getStr (jsGet body "appRoot")
         else defaultAppRoot)
        (if jsStrEq (jsGet body "source") "hook" then "hook" else "cli")
        (if isNonEmptyString (jsGet body "correlationId") then
          some (getStr (jsGet body "correlationId"))
         else none)
        freshId freshTs freshCid
      { status := 201
        stored := some event
        published := [("events.all", event),
                      ("events." ++ event.type, event)] }
  | _ => { status := 400, stored := none, published := [] }

/-! ## WebSocket pub/sub (server `websocket.open` handler and publish calls) -/

/-- Bun's `ws.subscribe(topic)`: a socket's subscriptions form a set of
topic strings. -/
def subscribeTopic (topics : List String) (t : String) : List String :=
  if t ∈ topics then topics else topics ++ [t]

/-- Bun's `ws.unsubscribe(topic)`. -/
def unsubscribeTopic (topics : List String) (t : String) : List String :=
  topics.filter (fun u => u ≠ t)

/-- The `websocket.open` handler of `server.ts`: subscribe to `events.all`,
then, if the upgrade URL carried a truthy `?type=` filter, subscribe to
`events.<type>` and unsubscribe from `events.all`.  The argument is
`url.searchParams.get('type')` (`none` when absent; the empty string is
falsy in JavaScript). -/
def openTopics (typeFilter : Option String) : List String :=
  let topics := subscribeTopic [] "events.all"
  match typeFilter with
  | some f =>
    if f ≠ "" then
      unsubscribeTopic (subscribeTopic topics ("events." ++ f)) "events.all"
    else topics
  | none => topics

/-- The two `bunServer.publish` calls made for every accepted envelope. -/
def publishTopics (etype : String) : List String :=
  ["events.all", "events." ++ etype]

/-- Number of frames a subscriber whose upgrade query carried `typeFilter`
receives for one accepted envelope of type `etype`: one frame per publish
whose topic the socket is subscribed to. -/
def deliveredCount (typeFilter : Option String) (etype : String) : Nat :=
  ((publishTopics etype).filter (fun t => t ∈ openTopics typeFilter)).length

/-! ## EventStore (`store.ts`): ring buffer with query filters -/

/-- A JavaScript number restricted to what the server's integer paths can
produce: an integer or `NaN` (from `Number.parseInt` on a non-numeric
string). -/
inductive JsNum where
  | nan : JsNum
  | int (n : Int) : JsNum
deriving Repr, DecidableEq

/-- `Number.parseInt(s, 10)`: skip leading whitespace, read an optional
sign, then the longest digit prefix; `NaN` when no digit is found. -/
def parseIntJs (s : String) : JsNum :=
  let cs := s.data.dropWhile (fun c =>
    c = ' ' ∨ c = '\t' ∨ c = '\n' ∨ c = '\r')
  let signed : Int × List Char :=
    match cs with
    | '-' :: rest => (-1, rest)
    | '+' :: rest => (1, rest)
    | _ => (1, cs)
  let ds := signed.2.takeWhile Char.isDigit
  if ds.isEmpty then .nan
  else .int (signed.1 * ds.foldl
    (fun acc c => acc * 10 + (Int.ofNat (c.toNat - '0'.toNat))) 0)

/-- `Math.min(a, b)`: `NaN` when either argument is `NaN`. -/
def jsMin (a b : JsNum) : JsNum :=
  match a, b with
  | .nan, _ => .nan
  | _, .nan => .nan
  | .int x, .int y => .int (min x y)

/-- `EventFilter` from `store.ts`.  `limit` is a `JsNum` because the
`GET /events` handler can pass `NaN` into it. -/
structure EventFilter where
  type : Option String
  since : Option String
  limit : Option JsNum

/-- The body of `EventStore.query` operating on the materialized event
array.  Note the truthiness tests: `if (filter?.type)` and
`if (filter?.since)` skip the filter when the value is absent *or* the
empty string, while `filter?.limit !== undefined` is an explicit
undefined check.  `events.slice(-limit)` keeps the last `limit` entries
for positive `limit`; for `NaN` the slice start converts to `0`, keeping
everything. -/
def queryList (events : List EventEnvelope) (filter : EventFilter) :
    List EventEnvelope :=
  let events := match filter.type with
    | some t => if t ≠ "" then events.filter (fun e => e.type = t) else events
    | none => events
  let events := match filter.since with
    | some ts => if ts ≠ "" then events.filter (fun e => ts < e.timestamp)
                 else events
    | none => events
  match filter.limit with
  | some (.int l) => if l ≤ 0 then [] else events.drop (events.length - l.toNat)
  | some .nan => events
  | none => events

/-- The `EventStore` state: `buffer` is the preallocated ring array
(`new Array(capacity)`), with `none` for slots never written. -/
structure EventStore where
  capacity : Nat
  buffer : List (Option EventEnvelope)
  writeIndex : Nat
  count : Nat

/-- A freshly constructed store of the given capacity. -/
def mkStore (capacity : Nat) : EventStore :=
  { capacity := capacity
    buffer := List.replicate capacity none
    writeIndex := 0
    count := 0 }

/-- `EventStore.push` (the in-memory part; JSONL persistence never touches
the ring).  JavaScript `(writeIndex + 1) % capacity` agrees with `Nat.mod`
for positive capacity. -/
def EventStore.push (s : EventStore) (e : EventEnvelope) : EventStore :=
  { s with
    buffer := s.buffer.set s.writeIndex (some e)
    writeIndex := (s.writeIndex + 1) % s.capacity
    count := if s.count < s.capacity then s.count + 1 else s.count }

/-- `EventStore.toArray`: stitch the two halves of the ring into
chronological order. -/
def EventStore.toArray (s : EventStore) : List (Option EventEnvelope) :=
  if s.count < s.capacity then s.buffer.take s.count
  else s.buffer.drop s.writeIndex ++ s.buffer.take s.writeIndex

/-- The written slots of `toArray` as envelopes.  In JavaScript `toArray`
returns the untouched slots directly; the `Option` layer only models the
preallocated array, so dropping the `none`s recovers the JS value. -/
def EventStore.toArrayVals (s : EventStore) : List EventEnvelope :=
  s.toArray.filterMap id

/-- `EventStore.query`. -/
def EventStore.query (s : EventStore) (filter : EventFilter) :
    List EventEnvelope :=
  queryList s.toArrayVals filter

/-- `EventStore.size`. -/
def EventStore.size (s : EventStore) : Nat := s.count

/-- Fold a sequence of pushes into the store. -/
def pushAll (s : EventStore) (es : List EventEnvelope) : EventStore :=
  es.foldl EventStore.push s

/-- `handleGetEvents` from `server.ts` (`GET /events`), reduced to the store
interaction: the three query parameters as `url.searchParams.get` returns
them (`none` when absent), producing the returned event list.
`limitStr ? Number.parseInt(limitStr, 10) : 100` tests truthiness, and
`Math.min(rawLimit, 1000)` propagates `NaN`. -/
def handleGetEvents (typeQ sinceQ limitQ : Option String)
    (store : EventStore) : List EventEnvelope :=
  let rawLimit := match limitQ with
    | some s => if s ≠ "" then parseIntJs s else .int 100
    | none => .int 100
  let limit := jsMin rawLimit (.int 1000)
  store.query { type := typeQ, since := sinceQ, limit := some limit }

/-! ## Enrichment pipeline (`server.ts`): JSON serialization, truncation,
field extraction, and the `POST /events/:eventName` handler -/

/-- One hexadecimal digit, for `\u00XX` escapes. -/
def hexDigit (n : Nat) : Char :=
  if n < 10 then Char.ofNat ('0'.toNat + n)
  else Char.ofNat ('a'.toNat + (n - 10))

/-- `JSON.stringify` escaping of a single character inside a string
literal. -/
def escapeChar (c : Char) : List Char :=
  if c = '"' then ['\\', '"']
  else if c = '\\' then ['\\', '\\']
  else if c = '\n' then ['\\', 'n']
  else if c = '\r' then ['\\', 'r']
  else if c = '\t' then ['\\', 't']
  else if c = '\x08' then ['\\', 'b']
  else if c = '\x0c' then ['\\', 'f']
  else if c.toNat < 0x20 then
    ['\\', 'u', '0', '0', hexDigit (c.toNat / 16), hexDigit (c.toNat % 16)]
  else [c]

/-- Escape every character of a string body. -/
def escapeChars : List Char → List Char
  | [] => []
  | c :: cs => escapeChar c ++ escapeChars cs

mutual

/-- `JSON.stringify`, producing the character list of the JSON text.
`undefined` at the top level has no JSON text (`JSON.stringify` returns
`undefined`); it is mapped to `[]` and is unreachable from `truncateField`,
which coalesces first.  Inside objects, `undefined`-valued keys are
dropped; inside arrays they serialize as `null`. -/
def serializeJson : JsValue → List Char
  | .undef => []
  | .null => "null".data
  | .bool true => "true".data
  | .bool false => "false".data
  | .num n => (toString n).data
  | .str s => '"' :: (escapeChars s.data ++ ['"'])
  | .arr xs => '[' :: (List.intercalate [','] (serializeElemsList xs) ++ [']'])
  | .obj fs =>
    '\x7b' :: (List.intercalate [','] (serializeFieldsList fs) ++ ['\x7d'])

/-- Serialized object members, skipping `undefined`-valued keys. -/
def serializeFieldsList : List (String × JsValue) → List (List Char)
  | [] => []
  | (k, v) :: fs =>
    match v with
    | .undef => serializeFieldsList fs
    | w => ('"' :: (escapeChars k.data ++ '"' :: ':' :: serializeJson w))
        :: serializeFieldsList fs

/-- Serialized array elements; `undefined` elements become `null`. -/
def serializeElemsList : List JsValue → List (List Char)
  | [] => []
  | x :: xs =>
    (match x with
     | .undef => "null".data
     | w => serializeJson w) :: serializeElemsList xs

end

mutual

/-- JavaScript `String(v)` coercion (used for `tool_error`). -/
def jsToString : JsValue → String
  | .undef => "undefined"
  | .null => "null"
  | .bool true => "true"
  | .bool false => "false"
  | .num n => toString n
  | .str s => s
  | .arr xs => String.intercalate "," (jsToStringElems xs)
  | .obj _ => "[object Object]"

/-- `Array.prototype.toString` element conversion: `null` and `undefined`
elements become the empty string. -/
def jsToStringElems : List JsValue → List String
  | [] => []
  | x :: xs =>
    (match x with
     | .undef => ""
     | .null => ""
     | w => jsToString w) :: jsToStringElems xs

end

/-- `truncateField` from `server.ts`:
serialize `value ?? ''` to JSON; keep the original value when the text
fits in `maxLen` characters, otherwise store the `maxLen`-character prefix
with a literal `"..."` appended.  Call sites use the default
`maxLen = 2000`. -/
def truncateField (value : JsValue) (maxLen : Nat) : JsValue :=
  let str := serializeJson (jsCoalesce value (.str ""))
  if str.length ≤ maxLen then value
  else .str (String.mk (str.take maxLen ++ "...".data))

/-- `extractEventFields` from `server.ts`: normalise a raw hook payload into
the envelope's `data` object for the given kebab-case event name. -/
def extractEventFields (eventName : String)
    (raw : List (String × JsValue)) : List (String × JsValue) :=
  match eventName with
  | "session-start" =>
    [("hookEvent", .str "session_start"),
     ("sessionId", jsGet raw "session_id"),
     ("source", jsCoalesce (jsGet raw "source") (.str "unknown")),
     ("model", jsCoalesce (jsGet raw "model") (.str "")),
     ("agentType", jsGet raw "agent_type"),
     ("permissionMode", jsGet raw "permission_mode")]
  | "pre-tool-use" =>
    [("hookEvent", .str "pre_tool_use"),
     ("sessionId", jsGet raw "session_id"),
     ("toolName", jsCoalesce (jsGet raw "tool_name") (.str "")),
     ("toolInputPreview", truncateField (jsGet raw "tool_input") 2000),
     ("permissionMode", jsGet raw "permission_mode")]
  | "post-tool-use" =>
    [("hookEvent", .str "post_tool_use"),
     ("sessionId", jsGet raw "session_id"),
     ("toolName", jsCoalesce (jsGet raw "tool_name") (.str "")),
     ("toolUseId", jsCoalesce (jsGet raw "tool_use_id") (.str "")),
     ("toolResultPreview", truncateField (jsGet raw "tool_result") 2000),
     ("permissionMode", jsGet raw "permission_mode")]
  | "post-tool-use-failure" =>
    [("hookEvent", .str "post_tool_use_failure"),
     ("sessionId", jsGet raw "session_id"),
     ("toolName", jsCoalesce (jsGet raw "tool_name") (.str "")),
     ("toolUseId", jsCoalesce (jsGet raw "tool_use_id") (.str "")),
     ("toolError", .str (jsToString (jsCoalesce (jsGet raw "tool_error")
        (.str "")))),
     ("permissionMode", jsGet raw "permission_mode")]
  | "stop" =>
    [("hookEvent", .str "stop"),
     ("sessionId", jsGet raw "session_id"),
     ("transcriptPath", jsGet raw "transcript_path"),
     ("permissionMode", jsGet raw "permission_mode")]
  | _ =>
    [("hookEvent", .str eventName),
     ("sessionId", jsGet raw "session_id"),
     ("raw", .obj raw)]

/-- The global regex replace in `mapEventName`: every dash in the name
becomes an underscore. -/
def kebabToSnake (name : String) : String :=
  String.map (fun c => if c = '-' then '_' else c) name

/-- `mapEventName` from `server.ts`: `EVENT_NAME_MAP` lookup with the
forward-compatible `hook.<snake_case>` fallback. -/
def mapEventName (name : String) : String :=
  match name with
  | "session-start" => "hook.session_start"
  | "pre-tool-use" => "hook.pre_tool_use"
  | "post-tool-use" => "hook.post_tool_use"
  | "post-tool-use-failure" => "hook.post_tool_use_failure"
  | "stop" => "hook.stop"
  | _ => "hook." ++ kebabToSnake name

/-- Result of the `POST /events/:eventName` handler: HTTP status, the JSON
response body, the store after the request, and the published
`(topic, envelope)` pairs. -/
structure HookResult where
  status : Nat
  response : JsValue
  store : EventStore
  published : List (String × EventEnvelope)

/-- `handleHookEvent` from `server.ts`, starting after
`parseJsonObjectBody` succeeded (so `raw` is a parsed JSON object).
`freshId`, `freshTs`, `freshCid` model `nanoId()`,
`new Date().toISOString()` and `generateCorrelationId()`.  The voice
trigger does not touch the store or the WebSocket layer and is omitted. -/
def handleHookEvent (eventName : String) (raw : List (String × JsValue))
    (store : EventStore) (defaultApp defaultAppRoot : String)
    (freshId freshTs freshCid : String) : HookResult :=
  if eventName = "stop" ∧ jsIsTrue (jsGet raw "stop_hook_active") then
    { status := 200
      response := .obj [("status", .str "skipped"),
                        ("reason", .str "stop_hook_active")]
      store := store
      published := [] }
  else
    let eventType := mapEventName eventName
    let appRoot := match jsGet raw "cwd" with
      | .str s => s
      | _ => defaultAppRoot
    let appName := if isNonEmptyString (jsGet raw "app") then
        getStr (jsGet raw "app")
      else defaultApp
    let envelope := createEvent eventType
      (.obj (extractEventFields eventName raw))
      appName appRoot "hook" (some freshCid) freshId freshTs freshCid
    { status := 201
      response := .obj [("id", .str envelope.id)]
      store := store.push envelope
      published := [("events.all", envelope),
                    ("events." ++ eventType, envelope)] }

/-! ## WS reconnect client (`client.ts`) -/

/-- `BASE_RECONNECT_DELAY_MS`. -/
def baseReconnectDelayMs : ℚ := 1000

/-- `MAX_RECONNECT_DELAY_MS`. -/
def maxReconnectDelayMs : ℚ := 30000

/-- The capped exponential term computed in `ws.onclose`:
`Math.min(reconnectDelay * 2 ** attempt, MAX_RECONNECT_DELAY_MS)`. -/
def reconnectBase (reconnectDelay : ℚ) (attempt : Nat) : ℚ :=
  min (reconnectDelay * 2 ^ attempt) maxReconnectDelayMs

/-- The actual timer duration scheduled in `ws.onclose`: the capped base
plus the jitter `Math.random() * 1000`. -/
def reconnectTimerMs (reconnectDelay : ℚ) (attempt : Nat) (jitter : ℚ) : ℚ :=
  reconnectBase reconnectDelay attempt + jitter

/-- The delay the claim asserts: cap applied after adding the jitter. -/
def claimedReconnectDelay (reconnectDelay : ℚ) (attempt : Nat)
    (jitter : ℚ) : ℚ :=
  min (reconnectDelay * 2 ^ attempt + jitter) maxReconnectDelayMs

/-- `ws.onopen`: reset the attempt counter. -/
def wsOnOpen (_attempt : Nat) : Nat := 0

/-- `ws.onclose` with auto-reconnect enabled: schedule the timer, then
increment the attempt counter.  Returns the scheduled duration and the new
counter. -/
def wsOnClose (reconnectDelay : ℚ) (attempt : Nat) (jitter : ℚ) :
    ℚ × Nat :=
  (reconnectTimerMs reconnectDelay attempt jitter, attempt + 1)

/-! ## Emitter (`emitEvent` and its module-level failure state) -/

/-- The module-level mutable state of the emitter:
`emitFailures` and `lastEmitFailureLogAt`. -/
structure EmitState where
  emitFailures : Nat
  lastEmitFailureLogAt : Int
deriving Repr, DecidableEq

/-- Outcome of the guarded `fetch`: `resolved status` when the promise
resolves with an HTTP response of the given status — `fetch` resolves for
*any* status, 2xx or not — and `rejected` when the promise rejects
(network error, abort timeout). -/
inductive FetchOutcome where
  | resolved (status : Nat) : FetchOutcome
  | rejected : FetchOutcome
deriving Repr, DecidableEq

/-- `EMIT_FAILURE_LOG_INTERVAL_MS`. -/
def emitFailureLogIntervalMs : Int := 30000

/-- One call of `emitEvent`, reduced to its effect on the module state:
the `try` branch runs to completion whenever the awaited `fetch` resolves —
the response object (and hence its status) is never inspected — so *any*
resolved response resets the failure counter; only a promise rejection
reaches the `catch`, which increments the counter and writes a
rate-limited stderr line (the returned `Bool`).  `now` is `Date.now()` at
the catch branch.  The function always returns (the `catch` absorbs every
exception), which the embedding reflects by being total. -/
def emitEventStep (s : EmitState) (outcome : FetchOutcome) (now : Int) :
    EmitState × Bool :=
  match outcome with
  | .resolved _ =>
    ({ emitFailures := 0,
       lastEmitFailureLogAt := s.lastEmitFailureLogAt }, false)
  | .rejected =>
    if emitFailureLogIntervalMs ≤ now - s.lastEmitFailureLogAt then
      ({ emitFailures := s.emitFailures + 1, lastEmitFailureLogAt := now },
       true)
    else
      ({ emitFailures := s.emitFailures + 1,
         lastEmitFailureLogAt := s.lastEmitFailureLogAt }, false)

/-- Run a sequence of `emitEvent` calls; collect the times at which a
stderr line was written. -/
def emitRun (s : EmitState) : List (FetchOutcome × Int) →
    EmitState × List Int
  | [] => (s, [])
  | (o, t) :: rest =>
    let step := emitEventStep s o t
    let tail := emitRun step.1 rest
    (tail.1, (if step.2 then [t] else []) ++ tail.2)

/-! ## Playback queue (`voice/queue.ts`) -/

/-- `QueueItem` from `voice/types.ts`. -/
structure QueueItem where
  filePath : String
  label : String
  enqueuedAt : Int
deriving Repr, DecidableEq

/-- `PlaybackQueue.enqueue`, reduced to its effect on the pending list:
silently drop the item when the queue is at `maxDepth`, otherwise append.
(The drain kick-off does not change the pending list at this point.) -/
def pqEnqueue (maxDepth : Nat) (q : List QueueItem) (item : QueueItem) :
    List QueueItem :=
  if maxDepth ≤ q.length then q else q ++ [item]

/-- The pending-list effect of the other queue operations: the drain
loop's `queue.shift()`, and `clear()` / `stop()` which empty the pending
list. -/
inductive QueueOp where
  | enqueue (item : QueueItem) : QueueOp
  | shift : QueueOp
  | clear : QueueOp
  | stop : QueueOp

/-- Apply one operation to the pending list. -/
def pqApply (maxDepth : Nat) (q : List QueueItem) : QueueOp →
    List QueueItem
  | .enqueue item => pqEnqueue maxDepth q item
  | .shift => q.tail
  | .clear => []
  | .stop => []

/-- Run a sequence of queue operations from the empty queue of a fresh
`PlaybackQueue`. -/
def pqRun (maxDepth : Nat) (ops : List QueueOp) : List QueueItem :=
  ops.foldl (pqApply maxDepth) []

/-- `PlaybackQueue.depth`. -/
def pqDepth (q : List QueueItem) : Nat := q.length

/-! ## Spec-side definitions and sample data -/

/-- Is the value a JavaScript object (not an array, not `null`)? -/
def JsValue.isObj : JsValue → Bool
  | .obj _ => true
  | _ => false

/-- Normalisation that maps an empty-string query parameter to an absent
one (what JavaScript truthiness effectively does). -/
def normParam : Option String → Option String
  | some s => if s = "" then none else some s
  | none => none

/-- The query semantics exactly as the spec words them (refinement target
for claim C4): when a `type` or `since` filter is *present* it is applied,
with no truthiness exception; `limit ≤ 0` yields the empty list, otherwise
the last `limit` entries are kept. -/
def querySpecList (events : List EventEnvelope)
    (t since : Option String) (limit : Option Int) : List EventEnvelope :=
  let events := match t with
    | some ty => events.filter (fun e => e.type = ty)
    | none => events
  let events := match since with
    | some ts => events.filter (fun e => ts < e.timestamp)
    | none => events
  match limit with
  | some l => if l ≤ 0 then [] else events.drop (events.length - l.toNat)
  | none => events

/-- A stand-in for the host `Date.parse` success predicate, true exactly on
the timestamp literal used by the sample bodies (a valid ISO-8601 date, so
`Date.parse` does accept it). -/
def sampleParseOk : String → Bool :=
  fun ts => ts == "2024-01-02T03:04:05.678Z"

/-- A well-formed sample envelope with the given type and timestamp. -/
def sampleEnvelope (ty ts : String) : EventEnvelope :=
  { schemaVersion := "1.0.0"
    id := "evt_sample"
    timestamp := ts
    type := ty
    app := "demo"
    appRoot := "/tmp/demo"
    source := "cli"
    correlationId := "c0ffee00"
    data := .obj [] }

/-- A full-envelope `POST /events` body whose `data` is JSON `null`. -/
def postBodyDataNull : List (String × JsValue) :=
  [("schemaVersion", .str "1.0.0"),
   ("id", .str "evt_1"),
   ("timestamp", .str "2024-01-02T03:04:05.678Z"),
   ("type", .str "worktree.created"),
   ("app", .str "demo"),
   ("appRoot", .str "/tmp/demo"),
   ("source", .str "cli"),
   ("correlationId", .str "deadbeef"),
   ("data", .null)]

/-- The envelope `validateFullEnvelope` builds from `postBodyDataNull`. -/
def envelopeDataNull : EventEnvelope :=
  { schemaVersion := "1.0.0"
    id := "evt_1"
    timestamp := "2024-01-02T03:04:05.678Z"
    type := "worktree.created"
    app := "demo"
    appRoot := "/tmp/demo"
    source := "cli"
    correlationId := "deadbeef"
    data := .null }

/-- A full-envelope `POST /events` body whose `data` is a proper object. -/
def postBodyDataObj : List (String × JsValue) :=
  [("schemaVersion", .str "1.0.0"),
   ("id", .str "evt_2"),
   ("timestamp", .str "2024-01-02T03:04:05.678Z"),
   ("type", .str "worktree.deleted"),
   ("app", .str "demo"),
   ("appRoot", .str "/tmp/demo"),
   ("source", .str "hook"),
   ("correlationId", .str "feedc0de"),
   ("data", .obj [("branch", .str "feat/x")])]

/-- The envelope `validateFullEnvelope` builds from `postBodyDataObj`. -/
def envelopeDataObj : EventEnvelope :=
  { schemaVersion := "1.0.0"
    id := "evt_2"
    timestamp := "2024-01-02T03:04:05.678Z"
    type := "worktree.deleted"
    app := "demo"
    appRoot := "/tmp/demo"
    source := "hook"
    correlationId := "feedc0de"
    data := .obj [("branch", .str "feat/x")] }

/-- A full-envelope `POST /events` body whose `type` is the literal
string `all`. -/
def postBodyTypeAll : List (String × JsValue) :=
  [("schemaVersion", .str "1.0.0"),
   ("id", .str "evt_3"),
   ("timestamp", .str "2024-01-02T03:04:05.678Z"),
   ("type", .str "all"),
   ("app", .str "demo"),
   ("appRoot", .str "/tmp/demo"),
   ("source", .str "cli"),
   ("correlationId", .str "0badf00d"),
   ("data", .obj [])]

/-- The envelope `validateFullEnvelope` builds from `postBodyTypeAll`. -/
def envelopeTypeAll : EventEnvelope :=
  { schemaVersion := "1.0.0"
    id := "evt_3"
    timestamp := "2024-01-02T03:04:05.678Z"
    type := "all"
    app := "demo"
    appRoot := "/tmp/demo"
    source := "cli"
    correlationId := "0badf00d"
    data := .obj [] }

/-! ## General lemmas -/

/-- Any queue operation keeps the pending list within `maxDepth`. -/
lemma pqApply_length_le (d : Nat) (q : List QueueItem) (op : QueueOp)
    (h : q.length ≤ d) : (pqApply d q op).length ≤ d := by
  cases op with
  | enqueue item =>
    simp only [pqApply, pqEnqueue]
    split
    · exact h
    · simp only [List.length_append, List.length_cons, List.length_nil]
      omega
  | shift =>
    simp only [pqApply, List.length_tail]
    omega
  | clear => simp [pqApply]
  | stop => simp [pqApply]

/-- Folding queue operations preserves the depth bound. -/
lemma pqFoldl_length_le (d : Nat) (ops : List QueueOp) (q : List QueueItem)
    (h : q.length ≤ d) : (ops.foldl (pqApply d) q).length ≤ d := by
  induction ops generalizing q with
  | nil => simpa using h
  | cons op rest ih =>
    simp only [List.foldl_cons]
    exact ih _ (pqApply_length_le d q op h)

/-! ## Claim C6: stop-recursion guard -/

/-- C6: a `POST /events/stop` request whose JSON body carries
`stop_hook_active: true` is answered 200 with
`status:"skipped", reason:"stop_hook_active"`, nothing is stored, nothing
is published, and the event store (hence `/health` `events.total`) is
unchanged. -/
theorem stop_hook_guard (raw : List (String × JsValue)) (store : EventStore)
    (defaultApp defaultAppRoot freshId freshTs freshCid : String)
    (h : jsIsTrue (jsGet raw "stop_hook_active") = true) :
    (handleHookEvent "stop" raw store defaultApp defaultAppRoot
        freshId freshTs freshCid).status = 200
    ∧ (handleHookEvent "stop" raw store defaultApp defaultAppRoot
        freshId freshTs freshCid).response
      = .obj [("status", .str "skipped"), ("reason", .str "stop_hook_active")]
    ∧ (handleHookEvent "stop" raw store defaultApp defaultAppRoot
        freshId freshTs freshCid).store = store
    ∧ (handleHookEvent "stop" raw store defaultApp defaultAppRoot
        freshId freshTs freshCid).published = []
    ∧ (handleHookEvent "stop" raw store defaultApp defaultAppRoot
        freshId freshTs freshCid).store.size = store.size := by
  simp [handleHookEvent, h]

/-- Witness for C6 at a concrete request body and store. -/
theorem stop_hook_guard_witness :
    jsIsTrue (jsGet [("stop_hook_active", JsValue.bool true)]
      "stop_hook_active") = true
    ∧ (handleHookEvent "stop" [("stop_hook_active", JsValue.bool true)]
        (mkStore 5) "demo" "/tmp/demo" "fid" "fts" "fcid").status = 200
    ∧ (handleHookEvent "stop" [("stop_hook_active", JsValue.bool true)]
        (mkStore 5) "demo" "/tmp/demo" "fid" "fts" "fcid").store
      = mkStore 5 :=
  ⟨rfl,
   (stop_hook_guard [("stop_hook_active", JsValue.bool true)] (mkStore 5)
     "demo" "/tmp/demo" "fid" "fts" "fcid" rfl).1,
   (stop_hook_guard [("stop_hook_active", JsValue.bool true)] (mkStore 5)
     "demo" "/tmp/demo" "fid" "fts" "fcid" rfl).2.2.1⟩

/-! ## Claim C9: playback queue depth bound -/

/-- C9: `enqueue` never raises (it is a total function of the model); an
enqueue at `depth ≥ maxDepth` drops the item and leaves the queue
unchanged; and after any sequence of queue operations from a fresh queue
the depth stays at most `maxDepth` — in particular 100 enqueues with
`maxDepth = 10` leave at most 10 items pending. -/
theorem playback_queue_bound (d : Nat) (ops : List QueueOp)
    (q : List QueueItem) (item : QueueItem) (h : d ≤ q.length) :
    pqDepth (pqRun d ops) ≤ d ∧ pqEnqueue d q item = q := by
  constructor
  · exact pqFoldl_length_le d ops [] (by simp)
  · simp [pqEnqueue, h]

/-- Witness for C9: 100 enqueues into a fresh queue with `maxDepth = 10`,
and a drop on a queue already holding `maxDepth` items. -/
theorem playback_queue_bound_witness :
    (10 : Nat) ≤ (List.replicate 10 (QueueItem.mk "/a.mp3" "A" 0)).length
    ∧ pqDepth (pqRun 10 (List.replicate 100
        (QueueOp.enqueue (QueueItem.mk "/b.mp3" "B" 1)))) ≤ 10
    ∧ pqEnqueue 10 (List.replicate 10 (QueueItem.mk "/a.mp3" "A" 0))
        (QueueItem.mk "/b.mp3" "B" 1)
      = List.replicate 10 (QueueItem.mk "/a.mp3" "A" 0) := by
  refine ⟨by simp, ?_, ?_⟩
  · exact (playback_queue_bound 10
      (List.replicate 100 (QueueOp.enqueue (QueueItem.mk "/b.mp3" "B" 1)))
      (List.replicate 10 (QueueItem.mk "/a.mp3" "A" 0))
      (QueueItem.mk "/b.mp3" "B" 1) (by simp)).1
  · exact (playback_queue_bound 10 []
      (List.replicate 10 (QueueItem.mk "/a.mp3" "A" 0))
      (QueueItem.mk "/b.mp3" "B" 1) (by simp)).2

/-! ## Claim C10: `GET /events` with a non-numeric limit -/

/-- C10: when the `limit` query parameter is present but does not parse as
a number (`Number.parseInt` yields `NaN`, e.g. for `abc`), neither the
default of 100 nor the 1000 cap applies: `Math.min(NaN, 1000)` is `NaN`,
the `limit ≤ 0` guard is not taken, `slice(-NaN)` keeps everything, and
the handler behaves as if no limit had been given at all — with no other
filters it returns every envelope currently in the store. -/
theorem get_events_nan_limit (store : EventStore) (limStr : String)
    (typeQ sinceQ : Option String)
    (h1 : limStr ≠ "") (h2 : parseIntJs limStr = .nan) :
    handleGetEvents typeQ sinceQ (some limStr) store
      = store.query { type := typeQ, since := sinceQ, limit := none }
    ∧ handleGetEvents none none (some limStr) store = store.toArrayVals
    ∧ parseIntJs "abc" = .nan := by
  refine ⟨?_, ?_, by decide⟩
  · simp [handleGetEvents, h1, h2, jsMin, EventStore.query, queryList]
  · simp [handleGetEvents, h1, h2, jsMin, EventStore.query, queryList]

/-- Witness for C10 at `?limit=abc` against a concrete one-event store. -/
theorem get_events_nan_limit_witness :
    ("abc" : String) ≠ ""
    ∧ parseIntJs "abc" = .nan
    ∧ handleGetEvents none none (some "abc")
        (pushAll (mkStore 3) [sampleEnvelope "worktree.created" "2024"])
      = (pushAll (mkStore 3)
          [sampleEnvelope "worktree.created" "2024"]).toArrayVals :=
  ⟨by decide, by decide,
   (get_events_nan_limit
     (pushAll (mkStore 3) [sampleEnvelope "worktree.created" "2024"])
     "abc" none none (by decide) (by decide)).2.1⟩

/-! ## Claim C7: WS reconnect backoff -/

/-- Counterexample to C7 as stated: with base 1000 ms, attempt 5 and
jitter 500, the code schedules `min(1000·2^5, 30000) + 500 = 30500 ms`,
not the claimed `min(1000·2^5 + 500, 30000) = 30000 ms`; in particular the
scheduled delay exceeds 30000 ms, because the cap is applied before the
jitter is added. -/
theorem reconnect_delay_counterexample :
    reconnectTimerMs 1000 5 500 = 30500
    ∧ claimedReconnectDelay 1000 5 500 = 30000
    ∧ reconnectTimerMs 1000 5 500 ≠ claimedReconnectDelay 1000 5 500
    ∧ maxReconnectDelayMs < reconnectTimerMs 1000 5 500 := by
  refine ⟨?_, ?_, ?_, ?_⟩ <;>
    norm_num [reconnectTimerMs, reconnectBase, claimedReconnectDelay,
      maxReconnectDelayMs, min_def]

/-- C7 as amended: the wait after the n-th consecutive failure equals
`min(b·2^n, 30000) + j` with jitter `j ∈ [0, 1000)` — so it is strictly
below 31000 ms but can exceed 30000 ms; the capped base is monotonically
non-decreasing in the attempt counter; a successful open resets the
counter to 0 and each close increments it. -/
theorem reconnect_backoff_amended (b j : ℚ) (n m : Nat)
    (hb : 0 ≤ b) (_hj0 : 0 ≤ j) (hj1 : j < 1000) :
    reconnectTimerMs b n j = min (b * 2 ^ n) 30000 + j
    ∧ reconnectTimerMs b n j < 31000
    ∧ reconnectBase b n ≤ reconnectBase b (n + 1)
    ∧ wsOnOpen m = 0
    ∧ (wsOnClose b n j).2 = n + 1 := by
  refine ⟨rfl, ?_, ?_, rfl, rfl⟩
  · have h1 : reconnectBase b n ≤ 30000 := min_le_right _ _
    have : reconnectTimerMs b n j = reconnectBase b n + j := rfl
    rw [this]
    linarith
  · apply min_le_min _ le_rfl
    have h2 : (2 : ℚ) ^ n ≤ 2 ^ (n + 1) :=
      pow_le_pow_right₀ (by norm_num) (Nat.le_succ n)
    exact mul_le_mul_of_nonneg_left h2 hb

/-- Witness for C7 (amended) at base 1000, attempt 3, jitter 250. -/
theorem reconnect_backoff_amended_witness :
    (0 : ℚ) ≤ 1000 ∧ (0 : ℚ) ≤ 250 ∧ (250 : ℚ) < 1000
    ∧ reconnectTimerMs 1000 3 250 = min ((1000 : ℚ) * 2 ^ 3) 30000 + 250
    ∧ reconnectTimerMs 1000 3 250 < 31000
    ∧ (wsOnClose 1000 3 250).2 = 4 :=
  ⟨by norm_num, by norm_num, by norm_num,
   (reconnect_backoff_amended 1000 250 3 0 (by norm_num) (by norm_num)
     (by norm_num)).1,
   (reconnect_backoff_amended 1000 250 3 0 (by norm_num) (by norm_num)
     (by norm_num)).2.1,
   (reconnect_backoff_amended 1000 250 3 0 (by norm_num) (by norm_num)
     (by norm_num)).2.2.2.2⟩

/-! ## Claim C2: broadcast uniqueness -/

/-- Appending to a common string prefix is injective. -/
lemma string_append_right_inj (p a b : String) :
    p ++ a = p ++ b ↔ a = b := by
  constructor
  · intro h
    have hd : p.data ++ a.data = p.data ++ b.data := by
      rw [← String.data_append, ← String.data_append, h]
    cases a with
    | mk da =>
      cases b with
      | mk db => exact congrArg String.mk (List.append_cancel_left hd)
  · intro h
    rw [h]

/-- The topic of an envelope of type `t` collides with the broad topic
exactly when `t` is the literal string `all`. -/
lemma events_topic_eq_all (t : String) :
    ("events." ++ t = "events.all") ↔ t = "all" := by
  have h : ("events.all" : String) = "events." ++ "all" := rfl
  rw [h, string_append_right_inj]

/-- Counterexample to C2 as stated: an envelope of type `all` passes full
validation (so it is accepted at ingress), yet `POST /events` publishes it
on `events.all` twice, and an unfiltered subscriber — subscribed only to
`events.all` — receives two frames for it. -/
theorem broadcast_double_delivery_counterexample :
    validateFullEnvelope sampleParseOk postBodyTypeAll = .ok envelopeTypeAll
    ∧ envelopeTypeAll.type = "all"
    ∧ (handlePostEnvelope sampleParseOk "demo" "/tmp/demo" "f1" "f2" "f3"
        postBodyTypeAll).published
      = [("events.all", envelopeTypeAll), ("events.all", envelopeTypeAll)]
    ∧ deliveredCount none "all" = 2 := by
  exact ⟨rfl, rfl, rfl, by decide⟩

/-- C2 as amended: the delivery guarantees hold for every accepted type
except the literal string `all`, and for subscriber filters that are
neither empty (falsy, hence ignored) nor `all`: an unfiltered subscriber
receives each such envelope exactly once; a subscriber with filter `F`
receives it exactly once when the type equals `F` and never otherwise; a
subscriber whose filter is `all` ends up subscribed to no topic and
receives nothing at all. -/
theorem broadcast_uniqueness_amended (T F : String)
    (hT : T ≠ "all") (hF1 : F ≠ "") (hF2 : F ≠ "all") :
    deliveredCount none T = 1
    ∧ deliveredCount (some F) T = (if T = F then 1 else 0)
    ∧ (∀ T2 : String, deliveredCount (some "all") T2 = 0) := by
  have hFa : ("events." ++ F : String) ≠ "events.all" := by
    intro h
    exact hF2 ((events_topic_eq_all F).mp h)
  have hTa : ("events." ++ T : String) ≠ "events.all" := by
    intro h
    exact hT ((events_topic_eq_all T).mp h)
  have hall : openTopics none = ["events.all"] := by
    simp [openTopics, subscribeTopic]
  have hsome : openTopics (some F) = ["events." ++ F] := by
    simp [openTopics, subscribeTopic, unsubscribeTopic, hF1, hFa]
  refine ⟨?_, ?_, ?_⟩
  · rw [deliveredCount, hall, publishTopics]
    simp [List.filter_cons, hTa]
  · rw [deliveredCount, hsome, publishTopics]
    rcases eq_or_ne T F with hTF | hTF
    · rw [hTF]
      simp [List.filter_cons, Ne.symm hFa]
    · have hne2 : ("events." ++ T : String) ≠ "events." ++ F := by
        intro h
        exact hTF ((string_append_right_inj "events." T F).mp h)
      simp [List.filter_cons, Ne.symm hFa, hne2, hTF]
  · intro T2
    have hempty : openTopics (some "all") = [] := by decide
    rw [deliveredCount, hempty, publishTopics]
    simp

/-- Witness for C2 (amended) at type `worktree.created` and filter
`worktree.deleted`, together with a matching-filter instance. -/
theorem broadcast_uniqueness_amended_witness :
    ("worktree.created" : String) ≠ "all"
    ∧ ("worktree.deleted" : String) ≠ ""
    ∧ ("worktree.deleted" : String) ≠ "all"
    ∧ deliveredCount none "worktree.created" = 1
    ∧ deliveredCount (some "worktree.deleted") "worktree.created"
      = (if ("worktree.created" : String) = "worktree.deleted" then 1 else 0)
    ∧ deliveredCount (some "worktree.deleted") "worktree.deleted"
      = (if ("worktree.deleted" : String) = "worktree.deleted" then 1 else 0)
    ∧ deliveredCount (some "all") "worktree.created" = 0 :=
  ⟨by decide, by decide, by decide,
   (broadcast_uniqueness_amended "worktree.created" "worktree.deleted"
     (by decide) (by decide) (by decide)).1,
   (broadcast_uniqueness_amended "worktree.created" "worktree.deleted"
     (by decide) (by decide) (by decide)).2.1,
   (broadcast_uniqueness_amended "worktree.deleted" "worktree.deleted"
     (by decide) (by decide) (by decide)).2.1,
   (broadcast_uniqueness_amended "worktree.created" "worktree.deleted"
     (by decide) (by decide) (by decide)).2.2 "worktree.created"⟩

/-! ## Claim C8: emitter absorbs failures, counts them, rate-limits logs -/

/-- Weakening the head bound of a `≤`-chain. -/
lemma chain_le_of_le {a b : Int} {l : List Int}
    (h : List.Chain (· ≤ ·) b l) (hab : a ≤ b) :
    List.Chain (· ≤ ·) a l := by
  cases l with
  | nil => exact List.Chain.nil
  | cons x xs =>
    rcases List.chain_cons.mp h with ⟨hbx, hrest⟩
    exact List.chain_cons.mpr ⟨le_trans hab hbx, hrest⟩

/-- Every logged time is at least 30 s after the previous one (and after
the initial `lastEmitFailureLogAt`), provided the calls happen at
non-decreasing clock times. -/
lemma emitRun_logs_spaced (tr : List (FetchOutcome × Int)) (s : EmitState)
    (h : List.Chain (· ≤ ·) s.lastEmitFailureLogAt (tr.map Prod.snd)) :
    List.Chain (fun a b => a + 30000 ≤ b) s.lastEmitFailureLogAt
      (emitRun s tr).2 := by
  induction tr generalizing s with
  | nil => exact List.Chain.nil
  | cons p rest ih =>
    obtain ⟨o, t⟩ := p
    rcases List.chain_cons.mp h with ⟨hst, hrest⟩
    cases o with
    | resolved status =>
      have htail := ih { emitFailures := 0,
                         lastEmitFailureLogAt := s.lastEmitFailureLogAt }
        (chain_le_of_le hrest hst)
      simpa [emitRun, emitEventStep] using htail
    | rejected =>
      by_cases hlog : (30000 : Int) ≤ t - s.lastEmitFailureLogAt
      · have hgap : s.lastEmitFailureLogAt + 30000 ≤ t := by omega
        have htail : List.Chain (fun a b => a + 30000 ≤ b) t
            (emitRun { emitFailures := s.emitFailures + 1,
                       lastEmitFailureLogAt := t } rest).2 :=
          ih { emitFailures := s.emitFailures + 1,
               lastEmitFailureLogAt := t } hrest
        have hcons : List.Chain (fun a b => a + 30000 ≤ b)
            s.lastEmitFailureLogAt
            (t :: (emitRun { emitFailures := s.emitFailures + 1,
                             lastEmitFailureLogAt := t } rest).2) :=
          List.chain_cons.mpr ⟨hgap, htail⟩
        simpa [emitRun, emitEventStep, emitFailureLogIntervalMs, hlog]
          using hcons
      · have htail := ih { emitFailures := s.emitFailures + 1,
                           lastEmitFailureLogAt := s.lastEmitFailureLogAt }
          (chain_le_of_le hrest hst)
        simpa [emitRun, emitEventStep, emitFailureLogIntervalMs, hlog]
          using htail

/-- Counterexample to C8 as stated: a non-2xx HTTP response is *not*
treated as a failure by `emitEvent`.  From a state with 3 accumulated
failures and the 30-second log window wide open, a POST answered with
status 500 resolves the `fetch` promise, takes the success branch, resets
`emitFailures` to 0, and writes no stderr line — while the claim says a
non-2xx outcome increments the counter and is logged. -/
theorem emit_non2xx_counterexample :
    ¬ (200 ≤ 500 ∧ 500 < 300)
    ∧ (30000 : Int) ≤ 40000 - (EmitState.mk 3 0).lastEmitFailureLogAt
    ∧ (emitEventStep (EmitState.mk 3 0)
        (FetchOutcome.resolved 500) 40000).1.emitFailures = 0
    ∧ (emitEventStep (EmitState.mk 3 0)
        (FetchOutcome.resolved 500) 40000).2 = false
    ∧ (emitEventStep (EmitState.mk 3 0)
        (FetchOutcome.resolved 500) 40000).1.emitFailures
      ≠ (EmitState.mk 3 0).emitFailures + 1 := by
  refine ⟨by decide, by decide, rfl, rfl, by decide⟩

/-- C8 as amended: `emitEvent` is total on every outcome (it never
throws), and the promise *rejections* — network error, abort timeout —
are absorbed with the counter/logging discipline; but an HTTP response is
never inspected, so any resolved POST — 2xx or not — resets the failure
counter to 0 and logs nothing.  A rejection increments the counter, and a
stderr line is written exactly when 30 s have elapsed since the last one —
so over any run at non-decreasing clock times, consecutive stderr lines
are at least 30 s apart. -/
theorem emit_never_throws_rate_limited (s : EmitState) (status : Nat)
    (now : Int) (tr : List (FetchOutcome × Int))
    (h : List.Chain (· ≤ ·) s.lastEmitFailureLogAt (tr.map Prod.snd)) :
    (emitEventStep s (.resolved status) now).1.emitFailures = 0
    ∧ (emitEventStep s (.resolved status) now).2 = false
    ∧ (emitEventStep s .rejected now).1.emitFailures = s.emitFailures + 1
    ∧ ((emitEventStep s .rejected now).2 = true
        ↔ 30000 ≤ now - s.lastEmitFailureLogAt)
    ∧ List.Chain (fun a b => a + 30000 ≤ b) s.lastEmitFailureLogAt
        (emitRun s tr).2 := by
  refine ⟨rfl, rfl, ?_, ?_, emitRun_logs_spaced tr s h⟩
  · by_cases hlog : (30000 : Int) ≤ now - s.lastEmitFailureLogAt
      <;> simp [emitEventStep, emitFailureLogIntervalMs, hlog]
  · by_cases hlog : (30000 : Int) ≤ now - s.lastEmitFailureLogAt
      <;> simp [emitEventStep, emitFailureLogIntervalMs, hlog]

/-- Witness for C8 (amended): three rejections at times 40 s, 50 s, 80 s
from the initial state; only the 40 s and 80 s calls log, 30 s apart, and
a resolved status-500 response resets the counter. -/
theorem emit_never_throws_rate_limited_witness :
    List.Chain (· ≤ ·) (EmitState.mk 0 0).lastEmitFailureLogAt
      (([((FetchOutcome.rejected), (40000 : Int)), (.rejected, 50000),
         (.rejected, 80000)]).map Prod.snd)
    ∧ (emitEventStep (EmitState.mk 0 0)
        (FetchOutcome.resolved 500) 40000).1.emitFailures = 0
    ∧ (emitEventStep (EmitState.mk 0 0) .rejected 40000).1.emitFailures = 1
    ∧ List.Chain (fun a b => a + 30000 ≤ b)
        (EmitState.mk 0 0).lastEmitFailureLogAt
        (emitRun (EmitState.mk 0 0)
          [(.rejected, 40000), (.rejected, 50000), (.rejected, 80000)]).2
    ∧ (emitRun (EmitState.mk 0 0)
        [(.rejected, 40000), (.rejected, 50000), (.rejected, 80000)]).2
      = [40000, 80000] :=
  ⟨by norm_num [List.chain_cons],
   (emit_never_throws_rate_limited (EmitState.mk 0 0) 500 40000
     [(.rejected, 40000), (.rejected, 50000), (.rejected, 80000)]
     (by norm_num [List.chain_cons])).1,
   (emit_never_throws_rate_limited (EmitState.mk 0 0) 500 40000
     [(.rejected, 40000), (.rejected, 50000), (.rejected, 80000)]
     (by norm_num [List.chain_cons])).2.2.1,
   (emit_never_throws_rate_limited (EmitState.mk 0 0) 500 40000
     [(.rejected, 40000), (.rejected, 50000), (.rejected, 80000)]
     (by norm_num [List.chain_cons])).2.2.2.2,
   by decide⟩

/-! ## Claim C1: full-envelope validation -/

/-- A value passing `isNonEmptyString` yields a non-blank string. -/
lemma isNonEmptyString_getStr {v : JsValue}
    (h : isNonEmptyString v = true) :
    0 < (trimChars (getStr v).data).length := by
  cases v <;> simp_all [isNonEmptyString, getStr]

/-- A value passing `jsStrEq` against a literal reads back as that
literal. -/
lemma jsStrEq_getStr {v : JsValue} {s : String}
    (h : jsStrEq v s = true) : getStr v = s := by
  cases v <;> simp_all [jsStrEq, getStr]

/-- What `validateFullEnvelope` actually guarantees about an accepted
envelope. -/
lemma validateFullEnvelope_ok {parseOk : String → Bool}
    {body : List (String × JsValue)} {e : EventEnvelope}
    (h : validateFullEnvelope parseOk body = .ok e) :
    e.schemaVersion = "1.0.0"
    ∧ 0 < (trimChars e.id.data).length
    ∧ 0 < (trimChars e.timestamp.data).length
    ∧ parseOk e.timestamp = true
    ∧ 0 < (trimChars e.type.data).length
    ∧ 0 < (trimChars e.app.data).length
    ∧ 0 < (trimChars e.appRoot.data).length
    ∧ (e.source = "cli" ∨ e.source = "hook")
    ∧ 0 < (trimChars e.correlationId.data).length
    ∧ jsHasKey body "data" = true
    ∧ e.data = jsGet body "data" := by
  unfold validateFullEnvelope at h
  split at h
  · exact Except.noConfusion h
  next h1 =>
  split at h
  · exact Except.noConfusion h
  next h2 =>
  split at h
  · exact Except.noConfusion h
  next h3 =>
  split at h
  · exact Except.noConfusion h
  next h4 =>
  split at h
  · exact Except.noConfusion h
  next h5 =>
  split at h
  · exact Except.noConfusion h
  next h6 =>
  split at h
  · exact Except.noConfusion h
  next h7 =>
  split at h
  · exact Except.noConfusion h
  next h8 =>
  split at h
  · exact Except.noConfusion h
  next h9 =>
  injection h with he
  subst he
  simp only [Bool.not_eq_true, Bool.not_eq_false'] at h1 h2 h4 h5 h6 h8 h9
  simp only [Bool.not_eq_true, Bool.not_eq_false', Bool.and_eq_true] at h3
  have h7or : jsStrEq (jsGet body "source") "cli" = true
      ∨ jsStrEq (jsGet body "source") "hook" = true := by
    cases hc : jsStrEq (jsGet body "source") "cli" with
    | true => exact Or.inl rfl
    | false =>
      cases hh : jsStrEq (jsGet body "source") "hook" with
      | true => exact Or.inr rfl
      | false =>
        exfalso
        exact absurd (by rw [hc, hh]; rfl :
          (!jsStrEq (jsGet body "source") "cli"
            && !jsStrEq (jsGet body "source") "hook") = true) h7
  refine ⟨rfl, isNonEmptyString_getStr h2, isNonEmptyString_getStr h3.1,
    h3.2, isNonEmptyString_getStr h4, isNonEmptyString_getStr h5,
    isNonEmptyString_getStr h6, ?_, isNonEmptyString_getStr h8, h9, rfl⟩
  rcases h7or with hyp | hyp
  · exact Or.inl (jsStrEq_getStr hyp)
  · exact Or.inr (jsStrEq_getStr hyp)

/-- When `schemaVersion` is present, a stored envelope from
`handlePostEnvelope` came from `validateFullEnvelope`. -/
lemma handlePost_full_stored {parseOk : String → Bool}
    {dApp dRoot f1 f2 f3 : String} {body : List (String × JsValue)}
    {e : EventEnvelope}
    (hfull : jsIsUndef (jsGet body "schemaVersion") = false)
    (hacc : (handlePostEnvelope parseOk dApp dRoot f1 f2 f3 body).stored
      = some e) :
    validateFullEnvelope parseOk body = .ok e := by
  revert hacc
  unfold handlePostEnvelope
  split
  · split
    · intro hacc
      exact Option.noConfusion hacc
    · split
      · split
        · intro hacc
          exact Option.noConfusion hacc
        next event heq =>
          intro hacc
          rw [heq]
          injection hacc with he
          rw [he]
      next hcond =>
        intro _
        exact absurd (by rw [hfull]; rfl :
          (!(jsIsUndef (jsGet body "schemaVersion"))) = true) hcond
  · intro hacc
    exact Option.noConfusion hacc

/-- A stored envelope implies the 201 acceptance status. -/
lemma handlePost_stored_status {parseOk : String → Bool}
    {dApp dRoot f1 f2 f3 : String} {body : List (String × JsValue)}
    {e : EventEnvelope}
    (hacc : (handlePostEnvelope parseOk dApp dRoot f1 f2 f3 body).stored
      = some e) :
    (handlePostEnvelope parseOk dApp dRoot f1 f2 f3 body).status = 201 := by
  revert hacc
  unfold handlePostEnvelope
  split
  · split
    · intro hacc
      exact Option.noConfusion hacc
    · split
      · split
        · intro hacc
          exact Option.noConfusion hacc
        · intro _
          rfl
      · intro _
        rfl
  · intro hacc
    exact Option.noConfusion hacc

/-- Counterexample to C1 as stated: a full envelope whose `data` is JSON
`null` passes validation and is accepted with 201 — the stored envelope's
`data` is `null`, not an object. -/
theorem envelope_data_null_counterexample :
    (handlePostEnvelope sampleParseOk "demo" "/tmp/demo" "f1" "f2" "f3"
      postBodyDataNull).status = 201
    ∧ (handlePostEnvelope sampleParseOk "demo" "/tmp/demo" "f1" "f2" "f3"
        postBodyDataNull).stored = some envelopeDataNull
    ∧ envelopeDataNull.data = JsValue.null
    ∧ JsValue.isObj envelopeDataNull.data = false :=
  ⟨rfl, rfl, rfl, rfl⟩

/-- C1 as amended: for a full-envelope `POST /events` accepted with 201,
the stored envelope has `schemaVersion = "1.0.0"`, non-blank `id`,
`timestamp`, `type`, `app`, `appRoot` and `correlationId` strings, a
`Date.parse`-able timestamp, `source ∈ {cli, hook}` — but `data` is only
checked for *presence*: it is stored exactly as sent and may be any JSON
value (`null`, an array, a scalar), not necessarily an object. -/
theorem envelope_validation_amended (parseOk : String → Bool)
    (dApp dRoot f1 f2 f3 : String) (body : List (String × JsValue))
    (e : EventEnvelope)
    (hfull : jsIsUndef (jsGet body "schemaVersion") = false)
    (hacc : (handlePostEnvelope parseOk dApp dRoot f1 f2 f3 body).stored
      = some e) :
    (handlePostEnvelope parseOk dApp dRoot f1 f2 f3 body).status = 201
    ∧ e.schemaVersion = "1.0.0"
    ∧ 0 < (trimChars e.id.data).length
    ∧ 0 < (trimChars e.timestamp.data).length
    ∧ parseOk e.timestamp = true
    ∧ 0 < (trimChars e.type.data).length
    ∧ 0 < (trimChars e.app.data).length
    ∧ 0 < (trimChars e.appRoot.data).length
    ∧ (e.source = "cli" ∨ e.source = "hook")
    ∧ 0 < (trimChars e.correlationId.data).length
    ∧ jsHasKey body "data" = true
    ∧ e.data = jsGet body "data" :=
  ⟨handlePost_stored_status hacc,
   validateFullEnvelope_ok (handlePost_full_stored hfull hacc)⟩

/-- Witness for C1 (amended) at a concrete full envelope whose `data` is a
proper object. -/
theorem envelope_validation_amended_witness :
    jsIsUndef (jsGet postBodyDataObj "schemaVersion") = false
    ∧ (handlePostEnvelope sampleParseOk "demo" "/tmp/demo" "f1" "f2" "f3"
        postBodyDataObj).stored = some envelopeDataObj
    ∧ ((handlePostEnvelope sampleParseOk "demo" "/tmp/demo" "f1" "f2" "f3"
          postBodyDataObj).status = 201
       ∧ envelopeDataObj.schemaVersion = "1.0.0") :=
  ⟨rfl, rfl,
   (envelope_validation_amended sampleParseOk "demo" "/tmp/demo" "f1" "f2"
     "f3" postBodyDataObj envelopeDataObj rfl rfl).1,
   (envelope_validation_amended sampleParseOk "demo" "/tmp/demo" "f1" "f2"
     "f3" postBodyDataObj envelopeDataObj rfl rfl).2.1⟩

/-! ## Claim C4: query filter composition -/

/-- Counterexample to C4 as stated: a present-but-empty `type` filter.
The spec's composition would keep only envelopes whose type is the empty
string (none here), but the code tests truthiness, so `type: ""` is
ignored and the whole store is returned. -/
theorem query_truthiness_counterexample :
    queryList [sampleEnvelope "worktree.created" "2024"]
      { type := some "", since := none, limit := none }
      = [sampleEnvelope "worktree.created" "2024"]
    ∧ querySpecList [sampleEnvelope "worktree.created" "2024"]
        (some "") none none = []
    ∧ queryList [sampleEnvelope "worktree.created" "2024"]
        { type := some "", since := none, limit := none }
      ≠ querySpecList [sampleEnvelope "worktree.created" "2024"]
          (some "") none none := by
  refine ⟨rfl, by simp [querySpecList, sampleEnvelope], ?_⟩
  simp [queryList, querySpecList, sampleEnvelope]

/-- C4 as amended: `query` composes the filters exactly as the spec
states — type equality first, then strict `timestamp > since`, then the
last `limit` entries with `limit ≤ 0` giving the empty list — except that
a present `type` or `since` filter equal to the empty string is ignored
(treated as absent), because the code tests JavaScript truthiness rather
than presence. -/
theorem query_filters_amended (events : List EventEnvelope)
    (t since : Option String) (limit : Option Int) :
    queryList events { type := t, since := since,
                       limit := limit.map JsNum.int }
      = querySpecList events (normParam t) (normParam since) limit := by
  cases t <;> cases since <;> cases limit <;>
    simp only [queryList, querySpecList, normParam, Option.map] <;>
    split_ifs <;> simp_all

/-! ## Claim C5: preview-field truncation -/

/-- A 3000-character string of `x`s, as in the spec's seed scenario. -/
def xs3000 : String := String.mk (List.replicate 3000 'x')

/-- A concrete `pre-tool-use` hook payload whose `tool_input.content` is
3000 `x` characters. -/
def rawPreToolUse : List (String × JsValue) :=
  [("session_id", .str "S"),
   ("tool_input", .obj [("content", .str xs3000)])]

/-- Escaping a run of `x`s measures its own length. -/
lemma escapeChars_length_x (n : Nat) :
    (escapeChars (List.replicate n 'x')).length = n := by
  induction n with
  | zero => rfl
  | succ n ih =>
    have hx : escapeChar 'x' = ['x'] := rfl
    simp [List.replicate_succ, escapeChars, hx, ih]

/-- Dropping the length of a prefix taken from a long-enough list exposes
the appended suffix. -/
lemma drop_take_append (l m : List Char) (n : Nat) (h : n ≤ l.length) :
    ((l.take n) ++ m).drop n = m := by
  have hlen : (l.take n).length = n := by
    rw [List.length_take]
    omega
  rw [List.drop_append_of_le_length (le_of_eq hlen.symm),
    List.drop_eq_nil_of_le (le_of_eq hlen), List.nil_append]

/-- C5: any value routed to a `*Preview` field whose JSON serialization
exceeds 2000 characters is stored as the 2000-character prefix of that
serialization with the literal `"..."` appended — a string of length 2003
ending in `"..."`. -/
theorem preview_truncation (raw : List (String × JsValue))
    (h : 2000 < (serializeJson (jsCoalesce (jsGet raw "tool_input")
      (.str ""))).length) :
    jsGet (extractEventFields "pre-tool-use" raw) "toolInputPreview"
      = .str (String.mk ((serializeJson (jsCoalesce (jsGet raw "tool_input")
          (.str ""))).take 2000 ++ "...".data))
    ∧ (String.mk ((serializeJson (jsCoalesce (jsGet raw "tool_input")
        (.str ""))).take 2000 ++ "...".data)).length = 2003
    ∧ ((serializeJson (jsCoalesce (jsGet raw "tool_input")
        (.str ""))).take 2000 ++ "...".data).drop 2000 = "...".data := by
  have hroute : jsGet (extractEventFields "pre-tool-use" raw)
      "toolInputPreview" = truncateField (jsGet raw "tool_input") 2000 := rfl
  have htake : ((serializeJson (jsCoalesce (jsGet raw "tool_input")
      (.str ""))).take 2000).length = 2000 := by
    rw [List.length_take]
    omega
  refine ⟨?_, ?_, ?_⟩
  · rw [hroute]
    rw [truncateField]
    rw [if_neg (by omega)]
  · show ((serializeJson (jsCoalesce (jsGet raw "tool_input")
      (.str ""))).take 2000 ++ "...".data).length = 2003
    rw [List.length_append, htake]
    rfl
  · exact drop_take_append _ _ _ (le_of_lt h)

/-- Witness for C5: the spec's seed scenario — `tool_input.content` is
3000 `x`s, the serialization has 3014 characters, and the stored
`toolInputPreview` is a string of length 2003 ending in `"..."`. -/
theorem preview_truncation_witness :
    2000 < (serializeJson (jsCoalesce (jsGet rawPreToolUse "tool_input")
      (.str ""))).length
    ∧ jsGet (extractEventFields "pre-tool-use" rawPreToolUse)
        "toolInputPreview"
      = .str (String.mk ((serializeJson (jsCoalesce
          (jsGet rawPreToolUse "tool_input")
          (.str ""))).take 2000 ++ "...".data))
    ∧ (String.mk ((serializeJson (jsCoalesce
        (jsGet rawPreToolUse "tool_input")
        (.str ""))).take 2000 ++ "...".data)).length = 2003 := by
  have hv : jsCoalesce (jsGet rawPreToolUse "tool_input") (JsValue.str "")
      = JsValue.obj [("content", JsValue.str xs3000)] := rfl
  have hcontent : escapeChars "content".data = "content".data := rfl
  have hc7 : ("content".data).length = 7 := rfl
  have hxdata : xs3000.data = List.replicate 3000 'x' := rfl
  have hescx : (escapeChars xs3000.data).length = 3000 := by
    rw [hxdata]
    exact escapeChars_length_x 3000
  have hlen : (serializeJson (JsValue.obj
      [("content", JsValue.str xs3000)])).length = 3014 := by
    simp [serializeJson, serializeFieldsList, List.intercalate,
      hcontent, hc7, hescx]
  have h : 2000 < (serializeJson (jsCoalesce
      (jsGet rawPreToolUse "tool_input") (.str ""))).length := by
    rw [hv, hlen]
    omega
  exact ⟨h, (preview_truncation rawPreToolUse h).1,
    (preview_truncation rawPreToolUse h).2.1⟩

/-! ## Claim C3: ring buffer capacity and eviction -/

section RingLemmas

variable {α : Type}

/-- Taking a prefix that ends before a `set` position ignores the `set`. -/
lemma take_set_of_le (l : List α) (i n : Nat) (a : α) (h : n ≤ i) :
    (l.set i a).take n = l.take n := by
  induction l generalizing i n with
  | nil => simp
  | cons x xs ih =>
    cases i with
    | zero =>
      have hn : n = 0 := Nat.le_zero.mp h
      simp [hn]
    | succ i =>
      cases n with
      | zero => simp
      | succ n =>
        simp only [List.set, List.take, List.cons.injEq, true_and]
        exact ih i n (by omega)

/-- Taking one past a `set` position splits off the written element. -/
lemma take_succ_set (l : List α) (i : Nat) (a : α) (h : i < l.length) :
    (l.set i a).take (i + 1) = l.take i ++ [a] := by
  induction l generalizing i with
  | nil => simp at h
  | cons x xs ih =>
    cases i with
    | zero => simp
    | succ i =>
      simp only [List.set, List.take, List.cons_append, List.cons.injEq,
        true_and]
      exact ih i (by simpa using h)

/-- Dropping past a `set` position ignores the `set`. -/
lemma drop_set_of_lt (l : List α) (i n : Nat) (a : α) (h : i < n) :
    (l.set i a).drop n = l.drop n := by
  induction l generalizing i n with
  | nil => simp
  | cons x xs ih =>
    cases i with
    | zero =>
      cases n with
      | zero => omega
      | succ n => simp [List.set]
    | succ i =>
      cases n with
      | zero => omega
      | succ n =>
        simp only [List.set, List.drop]
        exact ih i n (by omega)

/-- The tail of an append with a non-empty head distributes. -/
lemma tail_append_of_ne_nil (l m : List α) (h : l ≠ []) :
    (l ++ m).tail = l.tail ++ m := by
  cases l with
  | nil => exact absurd rfl h
  | cons x xs => simp

end RingLemmas

/-- A push into a store that is not yet full (with the write cursor at the
item count, as reachable states have) appends the new envelope at the end
of `toArray`. -/
lemma toArray_push_notfull (s : EventStore) (e : EventEnvelope)
    (hcap : s.buffer.length = s.capacity)
    (hlt : s.count < s.capacity)
    (hwi : s.writeIndex = s.count) :
    (s.push e).toArray = s.toArray ++ [some e] := by
  unfold EventStore.push EventStore.toArray
  simp only [hlt, if_true]
  by_cases hlt2 : s.count + 1 < s.capacity
  · rw [if_pos hlt2, hwi]
    exact take_succ_set s.buffer s.count (some e) (by omega)
  · have heq : s.count + 1 = s.capacity := by omega
    rw [if_neg hlt2, hwi, heq, Nat.mod_self, List.drop_zero,
      List.take_zero, List.append_nil]
    rw [List.set_eq_take_cons_drop (some e) (by omega),
      List.drop_eq_nil_of_le (by omega)]

/-- A push into a full store overwrites the slot at the write cursor — the
oldest entry of `toArray` — so `toArray` loses its head and gains the new
envelope at the end. -/
lemma toArray_push_full (s : EventStore) (e : EventEnvelope)
    (hcap : s.buffer.length = s.capacity)
    (hn : ¬ s.count < s.capacity)
    (hwi : s.writeIndex < s.capacity) :
    (s.push e).toArray = s.toArray.tail ++ [some e] := by
  unfold EventStore.push EventStore.toArray
  simp only [hn, if_false]
  have hwlen : s.writeIndex < s.buffer.length := by omega
  have hdropne : s.buffer.drop s.writeIndex ≠ [] := by
    intro hnil
    have := List.drop_eq_nil_iff.mp hnil
    omega
  rw [tail_append_of_ne_nil _ _ hdropne, List.tail_drop]
  by_cases hw2 : s.writeIndex + 1 < s.capacity
  · rw [Nat.mod_eq_of_lt hw2]
    rw [drop_set_of_lt s.buffer s.writeIndex (s.writeIndex + 1) (some e)
      (by omega)]
    rw [take_succ_set s.buffer s.writeIndex (some e) hwlen]
    rw [List.append_assoc]
  · have heq : s.writeIndex + 1 = s.capacity := by omega
    rw [heq, Nat.mod_self, List.drop_zero, List.take_zero, List.append_nil]
    rw [List.set_eq_take_cons_drop (some e) hwlen]
    rw [List.drop_eq_nil_of_le (by omega : s.buffer.length ≤
      s.writeIndex + 1)]
    rw [show s.buffer.drop s.capacity = [] from
      List.drop_eq_nil_of_le (by omega), List.nil_append]

/-- Folding a list of pushes equals pushing the last element onto the fold
of the rest. -/
lemma pushAll_append_singleton (s : EventStore) (es : List EventEnvelope)
    (e : EventEnvelope) :
    pushAll s (es ++ [e]) = (pushAll s es).push e := by
  simp [pushAll, List.foldl_append]

/-- The reachable-state invariant of the ring buffer: after pushing `es`
into a fresh store of positive capacity `c`, the item count is
`min |es| c`, the write cursor is `|es| % c`, and `toArray` is exactly the
last `min |es| c` pushes in order. -/
lemma pushAll_inv (c : Nat) (hc : 0 < c) (es : List EventEnvelope) :
    (pushAll (mkStore c) es).capacity = c
    ∧ (pushAll (mkStore c) es).buffer.length = c
    ∧ (pushAll (mkStore c) es).count = min es.length c
    ∧ (pushAll (mkStore c) es).writeIndex = es.length % c
    ∧ (pushAll (mkStore c) es).toArray
      = (es.drop (es.length - c)).map some := by
  induction es using List.reverseRecOn with
  | nil =>
    refine ⟨rfl, by simp [pushAll, mkStore], by simp [pushAll, mkStore],
      by simp [pushAll, mkStore], ?_⟩
    simp [pushAll, mkStore, EventStore.toArray, hc]
  | append_singleton es e ih =>
    obtain ⟨hcapa, hbuf, hcount, hwi, harr⟩ := ih
    rw [pushAll_append_singleton]
    have hpcap : ((pushAll (mkStore c) es).push e).capacity
        = (pushAll (mkStore c) es).capacity := rfl
    have hpbuf : ((pushAll (mkStore c) es).push e).buffer.length
        = (pushAll (mkStore c) es).buffer.length := List.length_set _ _ _
    by_cases hfull : es.length < c
    · -- Store not yet full: the push appends.
      have hmin : min es.length c = es.length := Nat.min_eq_left (by omega)
      have harr2 : ((pushAll (mkStore c) es).push e).toArray
          = (pushAll (mkStore c) es).toArray ++ [some e] := by
        apply toArray_push_notfull
        · rw [hbuf, hcapa]
        · rw [hcount, hcapa, hmin]
          exact hfull
        · rw [hwi, hcount, hmin, Nat.mod_eq_of_lt hfull]
      refine ⟨by rw [hpcap, hcapa], by rw [hpbuf, hbuf], ?_, ?_, ?_⟩
      · show (if (pushAll (mkStore c) es).count
            < (pushAll (mkStore c) es).capacity
          then (pushAll (mkStore c) es).count + 1
          else (pushAll (mkStore c) es).count) = _
        rw [hcount, hcapa, hmin, if_pos hfull]
        simp only [List.length_append, List.length_cons, List.length_nil]
        omega
      · show ((pushAll (mkStore c) es).writeIndex + 1)
            % (pushAll (mkStore c) es).capacity = _
        rw [hwi, hcapa, Nat.mod_eq_of_lt hfull]
        simp only [List.length_append, List.length_cons, List.length_nil]
      · rw [harr2, harr]
        have h0 : es.length - c = 0 := by omega
        have h1 : (es ++ [e]).length - c = 0 := by
          simp only [List.length_append, List.length_cons, List.length_nil]
          omega
        rw [h0, h1, List.drop_zero, List.drop_zero, List.map_append]
        rfl
    · -- Store full: the push evicts the single oldest entry.
      have hge : c ≤ es.length := by omega
      have hmin : min es.length c = c := Nat.min_eq_right hge
      have harr2 : ((pushAll (mkStore c) es).push e).toArray
          = (pushAll (mkStore c) es).toArray.tail ++ [some e] := by
        apply toArray_push_full
        · rw [hbuf, hcapa]
        · rw [hcount, hcapa, hmin]
          omega
        · rw [hwi, hcapa]
          exact Nat.mod_lt _ hc
      refine ⟨by rw [hpcap, hcapa], by rw [hpbuf, hbuf], ?_, ?_, ?_⟩
      · show (if (pushAll (mkStore c) es).count
            < (pushAll (mkStore c) es).capacity
          then (pushAll (mkStore c) es).count + 1
          else (pushAll (mkStore c) es).count) = _
        rw [hcount, hcapa, hmin, if_neg (lt_irrefl c)]
        simp only [List.length_append, List.length_cons, List.length_nil]
        rw [Nat.min_eq_right (by omega)]
      · show ((pushAll (mkStore c) es).writeIndex + 1)
            % (pushAll (mkStore c) es).capacity = _
        rw [hwi, hcapa]
        simp only [List.length_append, List.length_cons, List.length_nil]
        rcases Nat.lt_or_ge 1 c with hc2 | hc2
        · rw [Nat.add_mod es.length 1 c, Nat.mod_eq_of_lt hc2]
        · have hc1 : c = 1 := by omega
          simp [hc1, Nat.mod_one]
      · rw [harr2, harr]
        have htail : ((es.drop (es.length - c)).map some).tail
            = (es.drop (es.length - c + 1)).map some := by
          rw [← List.map_tail, List.tail_drop]
        rw [htail]
        have hlen : (es ++ [e]).length - c = es.length - c + 1 := by
          simp only [List.length_append, List.length_cons, List.length_nil]
          omega
        rw [hlen, List.drop_append_of_le_length (by omega),
          List.map_append]
        rfl

/-- Three sample envelopes for the ring-buffer witness. -/
def demoEvents : List EventEnvelope :=
  [sampleEnvelope "t.a" "T1", sampleEnvelope "t.b" "T2",
   sampleEnvelope "t.c" "T3"]

/-- C3: after `k` pushes into a store of capacity `c > 0`, `size = min(k, c)`
and `size ≤ c`; the unfiltered `query()` returns exactly the surviving
envelopes — the last `min(k, c)` — in push order; and once `k ≥ c`, one
further push removes exactly the single oldest stored envelope and appends
the new one. -/
theorem event_store_ring (c : Nat) (hc : 0 < c)
    (es : List EventEnvelope) (e : EventEnvelope) :
    (pushAll (mkStore c) es).size = min es.length c
    ∧ (pushAll (mkStore c) es).size ≤ c
    ∧ (pushAll (mkStore c) es).query
        { type := none, since := none, limit := none }
      = es.drop (es.length - c)
    ∧ (c ≤ es.length →
        ((pushAll (mkStore c) es).push e).toArray
          = ((pushAll (mkStore c) es).toArray).tail ++ [some e]) := by
  obtain ⟨hcap, hbuf, hcount, hwi, harr⟩ := pushAll_inv c hc es
  refine ⟨hcount, ?_, ?_, ?_⟩
  · have h1 : (pushAll (mkStore c) es).size = min es.length c := hcount
    omega
  · show queryList (pushAll (mkStore c) es).toArrayVals _ = _
    rw [EventStore.toArrayVals, harr]
    simp [queryList, ← List.map_drop]
  · intro hge
    apply toArray_push_full
    · rw [hbuf, hcap]
    · rw [hcount, hcap, Nat.min_eq_right hge]
      omega
    · rw [hwi, hcap]
      exact Nat.mod_lt _ hc

/-- Witness for C3 at capacity 2 with three pushes and one eviction. -/
theorem event_store_ring_witness :
    (0 : Nat) < 2
    ∧ 2 ≤ demoEvents.length
    ∧ (pushAll (mkStore 2) demoEvents).size = min demoEvents.length 2
    ∧ (pushAll (mkStore 2) demoEvents).query
        { type := none, since := none, limit := none }
      = demoEvents.drop (demoEvents.length - 2)
    ∧ ((pushAll (mkStore 2) demoEvents).push
        (sampleEnvelope "t.d" "T4")).toArray
      = ((pushAll (mkStore 2) demoEvents).toArray).tail
        ++ [some (sampleEnvelope "t.d" "T4")] :=
  ⟨by decide, by decide,
   (event_store_ring 2 (by decide) demoEvents
     (sampleEnvelope "t.d" "T4")).1,
   (event_store_ring 2 (by decide) demoEvents
     (sampleEnvelope "t.d" "T4")).2.2.1,
   (event_store_ring 2 (by decide) demoEvents
     (sampleEnvelope "t.d" "T4")).2.2.2 (by decide)⟩

end SQObs
